import Mathlib

/-!
Verification of the PyProgressBar repository (src/progress_bar.py) against its
natural-language specification.  The renderer, the session lifecycle and the
output interceptor are shallowly embedded below; Python floats are modelled by
exact rationals, Python's `int()` by truncation toward zero, and Python string
formatting by explicit character-list operations.
-/

namespace PyProgressBar

/-! ## Python-semantics helpers -/

/-- Python `int(x)`: truncation toward zero. -/
def pytrunc (q : ℚ) : ℤ := if 0 ≤ q then ⌊q⌋ else ⌈q⌉

/-- The character for a single decimal digit. -/
def digitChar (d : ℕ) : Char := Char.ofNat (48 + d)

/-- Little-endian base-10 digits with explicit fuel, so that the kernel can
evaluate it (`Nat.digits` is defined by well-founded recursion and does not
reduce); `natDigitsAux_eq` below shows it agrees with `Nat.digits 10`. -/
def natDigitsAux : ℕ → ℕ → List ℕ
  | 0, _ => []
  | _ + 1, 0 => []
  | fuel + 1, m + 1 => ((m + 1) % 10) :: natDigitsAux fuel ((m + 1) / 10)

/-- Python `str(n)` for a natural number. -/
def natRepr (n : ℕ) : List Char :=
  if n = 0 then ['0'] else (natDigitsAux n n).reverse.map digitChar

/-- Python `str(i)` for an integer. -/
def intRepr (i : ℤ) : List Char :=
  if i < 0 then '-' :: natRepr i.natAbs else natRepr i.natAbs

/-- Python `s.rjust(w)` (pads with spaces on the left, never truncates). -/
def rjust (w : ℕ) (s : List Char) : List Char := List.replicate (w - s.length) ' ' ++ s

/-- Python `s.ljust(w)` (pads with spaces on the right, never truncates). -/
def ljust (w : ℕ) (s : List Char) : List Char := s ++ List.replicate (w - s.length) ' '

/-- Zero padding on the left, used for the two decimal places of `fixed2`. -/
def padZero (w : ℕ) (s : List Char) : List Char := List.replicate (w - s.length) '0' ++ s

/-- Python `f"{x:.2f}"` on our rational model: round to two decimal places and
print.  (CPython rounds the binary double half-to-even; on exact rationals we
use ordinary rounding, which agrees except at exact half-cent ties.) -/
def fixed2 (q : ℚ) : List Char :=
  let n : ℤ := round (q * 100)
  intRepr (n.fdiv 100) ++ '.' :: padZero 2 (natRepr (n.fmod 100).toNat)

/-! ## The progress-bar state (fields of class `ProgressBar`) -/

/-- The mutable fields of a `ProgressBar` instance that the renderer and the
interceptor read (`__init__`, src/progress_bar.py lines 32-51). -/
structure PB where
  percentage : ℚ
  last_output_line_length : ℤ
  columns : ℕ
  is_tty : Bool
  total_items : Option ℕ := none
  processed_items : Option ℕ := none
  elapsed_time : Option ℚ := none

/-- `MIN_PROGRESS_BAR_LENGTH` (line 16). -/
def MIN_PROGRESS_BAR_LENGTH : ℕ := 40

/-! ## The renderer (`_compute_progress_bar_string`, lines 107-185) -/

/-- The local `done = int(length * percentage)` of `get_slider` (line 113),
as a function of the already-reduced length. -/
def slider_done (p : ℚ) (length : ℤ) : ℤ := pytrunc ((length : ℚ) * p)

/-- The local `partial_block = int((length * percentage - done) * 8)` of
`get_slider` (line 114). -/
def slider_part_block (p : ℚ) (length : ℤ) : ℤ :=
  pytrunc (((length : ℚ) * p - (slider_done p length : ℚ)) * 8)

/-- Inner function `get_slider(percentage, length)` (lines 111-122).
Python's `"█" * d` and `" " * r` with a negative count produce the empty
string, which `List.replicate ∘ Int.toNat` reproduces. -/
def get_slider (percentage : ℚ) (length : ℤ) : List Char :=
  let length := length - 3
  let done := slider_done percentage length
  let part_block := slider_part_block percentage length
  let bar := List.replicate done.toNat '█'
  let bar := if done < length then bar ++ [Char.ofNat (0x258F - part_block).toNat] else bar
  let remaining := length - done - 1
  let bar := bar ++ List.replicate remaining.toNat ' '
  '╟' :: (bar ++ ['╢', ' '])

/-- The percentage field `f"{int(self.percentage * 100):3}%"` (line 125). -/
def percentage_field (p : ℚ) : List Char :=
  rjust 3 (intRepr (pytrunc (p * 100))) ++ ['%']

/-- Python `str` of an optional value (`None` prints as `"None"`). -/
def optNatRepr : Option ℕ → List Char
  | none => ['N', 'o', 'n', 'e']
  | some n => natRepr n

/-- The processed/total counter
`f"{self.processed_items}/{self.total_items}  ".rjust(len(str(self.total_items)) * 2 + 3)`,
built only when `total_items` is not `None` (lines 128-132). -/
def processed_field (pb : PB) : List Char :=
  match pb.total_items with
  | none => []
  | some t =>
      rjust ((natRepr t).length * 2 + 3)
        (optNatRepr pb.processed_items ++ '/' :: (natRepr t ++ [' ', ' ']))

/-- `speed = self.processed_items / self.elapsed_time`, computed only when
`elapsed_time is not None and processed_items > 0` (lines 135-138).  States
with `elapsed_time` set but `processed_items = None` raise a `TypeError` in
Python and are unreachable through the API; we return `none` there. -/
def speed_val (pb : PB) : Option ℚ :=
  match pb.elapsed_time, pb.processed_items with
  | some e, some processed => if 0 < processed then some ((processed : ℚ) / e) else none
  | _, _ => none

/-- The throughput field (lines 136-143):
`f"{speed:.2f} it/s  "` when `speed >= 1`, else `f"{1/speed:.2f} s/it  ".rjust(11)`. -/
def speed_field (pb : PB) : List Char :=
  match speed_val pb with
  | none => []
  | some s =>
      if 1 ≤ s then fixed2 s ++ [' ', 'i', 't', '/', 's', ' ', ' ']
      else rjust 11 (fixed2 (1 / s) ++ [' ', 's', '/', 'i', 't', ' ', ' '])

/-- The ETA field (lines 146-150):
`f"{int(remaining_time) // 60}m {int(remaining_time) % 60}s".ljust(8)`,
computed only when `speed is not None and total_items is not None`.
Python `//` and `%` are floor division and floor modulus (`Int.fdiv`/`Int.fmod`). -/
def eta_field (pb : PB) : List Char :=
  match speed_val pb, pb.total_items, pb.processed_items with
  | some s, some t, some processed =>
      let remaining_time : ℚ := ((t : ℚ) - (processed : ℚ)) / s
      let rt : ℤ := pytrunc remaining_time
      ljust 8 (intRepr (rt.fdiv 60) ++ 'm' :: ' ' :: (intRepr (rt.fmod 60) ++ ['s']))
  | _, _, _ => []

/-- `_compute_progress_bar_string` (lines 107-185): the four-way layout
branch on the terminal width. -/
def compute_progress_bar_string (pb : PB) : List Char :=
  let percentage := percentage_field pb.percentage
  let processed_items := processed_field pb
  let speed_as_str := speed_field pb
  let eta := eta_field pb
  if percentage.length + processed_items.length + speed_as_str.length + eta.length +
      MIN_PROGRESS_BAR_LENGTH ≤ pb.columns then
    let slider_length : ℤ := (pb.columns : ℤ) - percentage.length - processed_items.length -
      speed_as_str.length - eta.length
    percentage ++ get_slider pb.percentage slider_length ++ processed_items ++
      speed_as_str ++ eta
  else if percentage.length + speed_as_str.length + eta.length +
      MIN_PROGRESS_BAR_LENGTH ≤ pb.columns then
    let slider_length : ℤ := (pb.columns : ℤ) - percentage.length - speed_as_str.length -
      eta.length
    percentage ++ get_slider pb.percentage slider_length ++ speed_as_str ++ eta
  else if percentage.length + eta.length + MIN_PROGRESS_BAR_LENGTH ≤ pb.columns then
    let slider_length : ℤ := (pb.columns : ℤ) - percentage.length - eta.length
    percentage ++ get_slider pb.percentage slider_length ++ eta
  else
    let slider_length : ℤ := (pb.columns : ℤ) - percentage.length
    percentage ++ get_slider pb.percentage slider_length

/-! ## ANSI control strings (lines 6-14) -/

def ESC : Char := Char.ofNat 27

def MOVE_UP : List Char := [ESC, '[', 'A']
def MOVE_DOWN : List Char := [ESC, '[', 'B']
def MOVE_RIGHT : List Char := [ESC, '[', 'C']
def MOVE_UP_START_OF_LINE : List Char := [ESC, '[', 'F']
def CLEAR_LINE : List Char := [ESC, '[', 'K']
def MOVE_START_OF_LINE : List Char := [ESC, '[', 'G']
def MOVE_END_OF_LINE : List Char := [ESC, '[', '1', '0', '0', '0', 'C']

/-- Python `s * n` on strings: `n` copies, the empty string for `n ≤ 0`. -/
def strTimes (s : List Char) (n : ℤ) : List Char := List.flatten (List.replicate n.toNat s)

/-! ## Observable actions of the interceptor

A session's observable behaviour is a sequence of calls to the saved
`self.stdout_write` and of assignments to `self.last_output_line_length`. -/

inductive Act
  | out (s : List Char)
  | set_len (n : ℤ)
deriving DecidableEq, Repr

/-- Python errors relevant to this program. -/
inductive PyErr
  | assertionError
  | workError
deriving DecidableEq, Repr

/-! ## `set_progress` (lines 86-105) and `_handle_columns_resize` (lines 209-245) -/

/-- `_handle_columns_resize` (lines 209-245), with the freshly observed
terminal width passed in as `new_columns`.  Python `%` on integers is floor
modulus (`Int.fmod`). -/
def handle_columns_resize (pb : PB) (new_columns : ℕ) : PB × List Act :=
  let progress_bar_length := (compute_progress_bar_string pb).length
  let progress_bar_lines := (progress_bar_length + new_columns - 1) / new_columns
  let acts : List Act :=
    [.out (List.flatten (List.replicate (progress_bar_lines - 1) (CLEAR_LINE ++ MOVE_UP)) ++
      CLEAR_LINE ++ MOVE_START_OF_LINE)]
  let (pb, acts) :=
    if (new_columns : ℤ) < pb.last_output_line_length then
      let t := pb.last_output_line_length.fmod (new_columns : ℤ)
      let text_on_last_line := if t = 0 then (new_columns : ℤ) else t
      let acts := acts ++
        [.out (MOVE_UP ++ strTimes MOVE_RIGHT text_on_last_line ++ ['\n']),
         .set_len 0, .out ['\n']]
      ({ pb with last_output_line_length := 0 }, acts)
    else (pb, acts)
  let pb := { pb with columns := new_columns }
  (pb, acts ++ [.out (compute_progress_bar_string pb ++ MOVE_END_OF_LINE)])

/-- `set_progress` (lines 86-105).  The range assertion is the first statement
of the method, before any field mutation or output; on failure the state is
returned unchanged with an empty action list.  `observed_columns` is the
terminal width reported by `_get_terminal_width()` at call time. -/
def set_progress (pb : PB) (observed_columns : ℕ) (p : ℚ) :
    (PB × List Act) × Option PyErr :=
  if ¬(0 ≤ p ∧ p ≤ 1) then ((pb, []), some .assertionError)
  else
    let pb := { pb with percentage := p }
    if pb.is_tty = false then
      ((pb, [.out (compute_progress_bar_string pb ++ ['\n'])]), none)
    else
      let (pb, acts) :=
        if pb.columns ≠ observed_columns then handle_columns_resize pb observed_columns
        else (pb, [])
      ((pb, acts ++ [.out (MOVE_START_OF_LINE ++ CLEAR_LINE),
        .out (compute_progress_bar_string pb ++ MOVE_END_OF_LINE)]), none)

/-! ## The interceptor's `write` (lines 247-303) -/

/-- One character of the non-TTY branch of `write` (lines 252-260). -/
def write_non_tty_step (st : List Act × ℤ) (c : Char) : List Act × ℤ :=
  if c = '\n' then (st.1 ++ [.out ['\n'], .set_len 0], 0)
  else (st.1 ++ [.out [c], .set_len (st.2 + 1)], st.2 + 1)

/-- The non-TTY branch of `write` on a whole text, starting from tracked
length `len0`: the emitted actions and the final tracked length. -/
def write_non_tty (len0 : ℤ) (text : List Char) : List Act × ℤ :=
  text.foldl write_non_tty_step ([], len0)

/-- Loop state of the TTY branch of `write`: emitted actions, the pending
`buffer`, the tracked `last_output_line_length`, and the
`overwrote_progress` flag. -/
structure WState where
  acts : List Act
  buffer : List Char
  len : ℤ
  overwrote : Bool

/-- One character of the TTY loop of `write` (lines 277-290). -/
def write_tty_step (columns : ℕ) (s : WState) (c : Char) : WState :=
  let s :=
    if (columns : ℤ) ≤ s.len ∨ c = '\n' then
      let s :=
        if s.buffer.isEmpty then s
        else { s with acts := s.acts ++ [.out s.buffer], buffer := [] }
      { s with acts := s.acts ++ [.out ('\n' :: CLEAR_LINE), .set_len 0],
               overwrote := true, len := 0 }
    else s
  if c = '\n' then s
  else { s with buffer := s.buffer ++ [c], len := s.len + 1,
                acts := s.acts ++ [.set_len (s.len + 1)] }

/-- The character loop of the TTY branch of `write` (lines 274-290). -/
def write_tty_loop (columns : ℕ) (len0 : ℤ) (text : List Char) : WState :=
  text.foldl (write_tty_step columns) ⟨[], [], len0, false⟩

/-- The TTY branch of `write` (lines 262-303), assuming the terminal width is
unchanged so the resize branch of line 263 is not taken.  Returns the emitted
actions and the final tracked line length. -/
def write_tty (pb : PB) (text : List Char) : List Act × ℤ :=
  let init : List Act :=
    [.out (MOVE_UP_START_OF_LINE ++ strTimes MOVE_RIGHT pb.last_output_line_length)]
  let s := write_tty_loop pb.columns pb.last_output_line_length text
  let acts := init ++ s.acts ++ (if s.buffer.isEmpty then [] else [.out s.buffer])
  let acts :=
    if s.overwrote = false then acts ++ [.out (MOVE_DOWN ++ MOVE_END_OF_LINE)]
    else acts ++ [.out ['\n'], .out (compute_progress_bar_string pb ++ MOVE_END_OF_LINE)]
  (acts, s.len)

/-! ## Session lifecycle (`__iter__` lines 53-84, `__enter__`/`__exit__` lines 187-207) -/

/-- The process-wide session state: the class-level `_lock` flag and whether
`sys.stdout.write` currently is the original write function. -/
structure SessionState where
  lock : Bool
  stdout_restored : Bool
deriving DecidableEq, Repr

/-- The prologue of `__iter__` (lines 59-63): assert an iterable was given,
assert `_lock` is not held, then take the lock. -/
def iter_start (hasIterable : Bool) (s : SessionState) : SessionState × Option PyErr :=
  if hasIterable = false then (s, some .assertionError)
  else if s.lock then (s, some .assertionError)
  else ({ s with lock := true }, none)

/-- `__enter__` (lines 187-199): swaps `sys.stdout.write` for the
interceptor, prints a newline and renders the bar at percentage 0.  It
performs no lock check and cannot fail. -/
def enter_session (s : SessionState) : SessionState × Option PyErr :=
  ({ s with stdout_restored := false }, none)

/-- `__exit__` (lines 201-207): prints a trailing newline and restores
`sys.stdout.write`.  It runs on every exit of the `with` block. -/
def exit_session (s : SessionState) : SessionState := { s with stdout_restored := true }

/-- Outcome of the work enclosed by the iteration: the consumer either drains
the generator normally or raises out of the loop body, closing the
generator at its `yield`. -/
inductive WorkOutcome
  | normal
  | raises
deriving DecidableEq, Repr

/-- The control flow of `__iter__` (lines 53-84) with the enclosed work
abstracted by its outcome.  `ProgressBar._lock = False` (line 84) sits after
the `with` block, so it runs only when the generator completes normally; when
the enclosed work raises, `__exit__` still runs but line 84 is skipped. -/
def iter_generator (hasIterable : Bool) (work : WorkOutcome) (s : SessionState) :
    SessionState × Option PyErr :=
  match iter_start hasIterable s with
  | (s, some e) => (s, some e)
  | (s, none) =>
      match enter_session s with
      | (s, some e) => (s, some e)
      | (s, none) =>
          match work with
          | .normal =>
              let s := exit_session s
              ({ s with lock := false }, none)
          | .raises =>
              let s := exit_session s
              (s, some .workError)

/-! ## The unsized-iterable check (`__iter__` lines 66-71) -/

/-- Python assert on an already-evaluated truth value. -/
def py_assert (b : Bool) : Option PyErr :=
  if b then none else some .assertionError

/-- Python truthiness of a string: non-empty strings are truthy. -/
def py_truthy (s : List Char) : Bool := !s.isEmpty

/-- The literal operand of the assert on line 71. -/
def assert_msg : List Char :=
  ['T', 'h', 'e', ' ', 'i', 't', 'e', 'r', 'a', 'b', 'l', 'e', ' ', 'm', 'u', 's',
   't', ' ', 'h', 'a', 'v', 'e', ' ', 'a', ' ', 'l', 'e', 'n', 'g', 't', 'h', '.']

/-- Lines 66-71 of `__iter__`: `total_items` starts at 0; `len(self.iterable)`
either succeeds or the `except` branch runs `assert "The iterable must have a
length."` — an assert on the string itself.  Returns the resulting
`total_items` and the error raised, if any. -/
def compute_total_items (pyLen : Option ℕ) : ℕ × Option PyErr :=
  match pyLen with
  | some n => (n, none)
  | none => (0, py_assert (py_truthy assert_msg))

/-! ## Trace predicates for the tracked line length -/

/-- The next action assigns 0 to the tracked length. -/
def head_resets : List Act → Bool
  | .set_len n :: _ => n == 0
  | _ => false

/-- Every `out` action containing a newline is immediately followed by the
assignment `last_output_line_length = 0`. -/
def resets_after_newline : List Act → Bool
  | [] => true
  | .set_len _ :: rest => resets_after_newline rest
  | .out s :: rest =>
      if s.any (· = '\n') then head_resets rest && resets_after_newline rest
      else resets_after_newline rest

/-- Tracking the length along the action list from initial value `l`: right
after any `out` action containing a newline, the tracked length is 0 (either
already 0 or assigned 0 by the immediately following action). -/
def len_zero_after_newline : List Act → ℤ → Bool
  | [], _ => true
  | .set_len n :: rest, _ => len_zero_after_newline rest n
  | .out s :: rest, l =>
      if s.any (· = '\n') then
        (head_resets rest || decide (l = 0)) && len_zero_after_newline rest l
      else len_zero_after_newline rest l

/-- Every assignment to the tracked length in the trace is non-negative. -/
def acts_nonneg : List Act → Bool
  | [] => true
  | .set_len n :: rest => decide (0 ≤ n) && acts_nonneg rest
  | .out _ :: rest => acts_nonneg rest

/-- Naive substring occurrence test. -/
def occurs (pat s : List Char) : Bool :=
  (List.range (s.length + 1)).any fun k => decide ((s.drop k).take pat.length = pat)

/- Batteries marks the arithmetic of `Rat` `@[irreducible]`, which prevents
`decide` from evaluating the renderer on concrete states; restore the default
transparency for this development. -/
attribute [local semireducible] Rat.mul Rat.inv Rat.add Rat.sub

/-! ## The layout policy of `_compute_progress_bar_string` as inclusion predicates -/

/-- The ETA field fits: the branch condition of line 178. -/
def keeps_eta (pb : PB) : Prop :=
  (percentage_field pb.percentage).length + (eta_field pb).length +
    MIN_PROGRESS_BAR_LENGTH ≤ pb.columns

/-- The throughput field fits (given that ETA is kept): line 169. -/
def keeps_speed (pb : PB) : Prop :=
  (percentage_field pb.percentage).length + (speed_field pb).length +
    (eta_field pb).length + MIN_PROGRESS_BAR_LENGTH ≤ pb.columns

/-- The processed/total counter fits (given the other fields): line 152. -/
def keeps_counter (pb : PB) : Prop :=
  (percentage_field pb.percentage).length + (processed_field pb).length +
    (speed_field pb).length + (eta_field pb).length +
    MIN_PROGRESS_BAR_LENGTH ≤ pb.columns

instance (pb : PB) : Decidable (keeps_eta pb) :=
  inferInstanceAs (Decidable (_ ≤ _))

instance (pb : PB) : Decidable (keeps_speed pb) :=
  inferInstanceAs (Decidable (_ ≤ _))

instance (pb : PB) : Decidable (keeps_counter pb) :=
  inferInstanceAs (Decidable (_ ≤ _))

/-- The width handed to `get_slider` in the branch of
`_compute_progress_bar_string` that the layout policy selects: the terminal
width minus the lengths of the percentage field and of every kept optional
field. -/
def slider_allotted (pb : PB) : ℤ :=
  (pb.columns : ℤ) - (percentage_field pb.percentage).length -
    (if keeps_counter pb then ((processed_field pb).length : ℤ) else 0) -
    (if keeps_speed pb then ((speed_field pb).length : ℤ) else 0) -
    (if keeps_eta pb then ((eta_field pb).length : ℤ) else 0)

/-! ## Basic lemmas on the helpers -/

theorem pytrunc_eq_floor {q : ℚ} (h : 0 ≤ q) : pytrunc q = ⌊q⌋ := if_pos h

theorem rjust_length (w : ℕ) (s : List Char) : (rjust w s).length = max w s.length := by
  simp only [rjust, List.length_append, List.length_replicate]
  omega

theorem ljust_length (w : ℕ) (s : List Char) : (ljust w s).length = max w s.length := by
  simp only [ljust, List.length_append, List.length_replicate]
  omega

theorem natDigitsAux_eq (fuel n : ℕ) (h : n ≤ fuel) :
    natDigitsAux fuel n = Nat.digits 10 n := by
  induction fuel generalizing n with
  | zero =>
      have : n = 0 := by omega
      subst this
      simp [natDigitsAux]
  | succ f ih =>
      match n with
      | 0 => simp [natDigitsAux]
      | m + 1 =>
          rw [show natDigitsAux (f + 1) (m + 1) =
            ((m + 1) % 10) :: natDigitsAux f ((m + 1) / 10) from rfl]
          rw [ih ((m + 1) / 10) (by omega)]
          rw [Nat.digits_def' (by norm_num : (1 : ℕ) < 10) (Nat.succ_pos m)]

theorem natRepr_length_le {n k : ℕ} (hk : 1 ≤ k) (h : n < 10 ^ k) :
    (natRepr n).length ≤ k := by
  unfold natRepr
  split
  · simpa using hk
  · rename_i hn
    rw [natDigitsAux_eq n n le_rfl]
    simp only [List.length_map, List.length_reverse]
    rw [Nat.digits_len 10 n (by norm_num) hn]
    exact Nat.log_lt_of_lt_pow hn h

theorem percentage_field_length {p : ℚ} (h0 : 0 ≤ p) (h1 : p ≤ 1) :
    (percentage_field p).length = 4 := by
  have hp0 : (0 : ℚ) ≤ p * 100 := by positivity
  have hfl0 : 0 ≤ ⌊p * 100⌋ := Int.floor_nonneg.mpr hp0
  have hfl1 : ⌊p * 100⌋ ≤ 100 := by
    have h100 : p * 100 ≤ (100 : ℚ) := by nlinarith
    have := Int.floor_le_floor h100
    simpa using this
  have habs : ⌊p * 100⌋.natAbs < 10 ^ 3 := by
    have : ⌊p * 100⌋.natAbs ≤ 100 := by omega
    omega
  unfold percentage_field
  rw [pytrunc_eq_floor hp0]
  have hint : intRepr ⌊p * 100⌋ = natRepr ⌊p * 100⌋.natAbs := by
    unfold intRepr
    rw [if_neg (by omega)]
  rw [hint]
  have hlen : (natRepr ⌊p * 100⌋.natAbs).length ≤ 3 :=
    natRepr_length_le (by norm_num) habs
  simp only [List.length_append, rjust_length, List.length_singleton]
  omega

/-! ## Lemmas on `get_slider` -/

theorem slider_done_nonneg {p : ℚ} {n : ℤ} (hp : 0 ≤ p) (hn : 0 ≤ n) :
    0 ≤ slider_done p n := by
  have hnp : (0 : ℚ) ≤ (n : ℚ) * p := mul_nonneg (by exact_mod_cast hn) hp
  unfold slider_done
  rw [pytrunc_eq_floor hnp]
  exact Int.floor_nonneg.mpr hnp

theorem slider_done_le {p : ℚ} {n : ℤ} (hp0 : 0 ≤ p) (hp1 : p ≤ 1) (hn : 0 ≤ n) :
    slider_done p n ≤ n := by
  have hnp : (0 : ℚ) ≤ (n : ℚ) * p := mul_nonneg (by exact_mod_cast hn) hp0
  have hmul : (n : ℚ) * p ≤ (n : ℚ) :=
    mul_le_of_le_one_right (by exact_mod_cast hn) hp1
  unfold slider_done
  rw [pytrunc_eq_floor hnp]
  have := Int.floor_le_floor hmul
  simpa using this

theorem le_slider_done {p : ℚ} {n : ℤ} (hp0 : 0 ≤ p) (hp1 : p ≤ 1) (hn : n ≤ 0) :
    n ≤ slider_done p n := by
  have hmul : (n : ℚ) ≤ (n : ℚ) * p := by nlinarith [show (n : ℚ) ≤ 0 from by exact_mod_cast hn]
  unfold slider_done
  by_cases h : 0 ≤ (n : ℚ) * p
  · rw [pytrunc_eq_floor h]
    have := Int.floor_nonneg.mpr h
    omega
  · rw [pytrunc, if_neg h]
    have := Int.ceil_le_ceil hmul
    simpa using this

theorem slider_done_nonpos {p : ℚ} {n : ℤ} (hp0 : 0 ≤ p) (hn : n ≤ 0) :
    slider_done p n ≤ 0 := by
  have hmul : (n : ℚ) * p ≤ 0 :=
    mul_nonpos_iff.mpr (Or.inr ⟨by exact_mod_cast hn, hp0⟩)
  unfold slider_done
  by_cases h : 0 ≤ (n : ℚ) * p
  · rw [pytrunc_eq_floor h]
    have heq : (n : ℚ) * p = 0 := le_antisymm hmul h
    simp [heq]
  · rw [pytrunc, if_neg h]
    have := Int.ceil_le_ceil hmul
    simpa using this

theorem slider_part_block_bounds {p : ℚ} {n : ℤ} (hp0 : 0 ≤ p) (hp1 : p ≤ 1)
    (hlt : slider_done p n < n) :
    0 ≤ slider_part_block p n ∧ slider_part_block p n ≤ 7 := by
  have hn : 0 < n := by
    by_contra h
    push_neg at h
    exact absurd hlt (not_lt.mpr (le_slider_done hp0 hp1 h))
  have hnp : (0 : ℚ) ≤ (n : ℚ) * p := mul_nonneg (by exact_mod_cast hn.le) hp0
  have hdone : slider_done p n = ⌊(n : ℚ) * p⌋ := pytrunc_eq_floor hnp
  have hfrac0 : (0 : ℚ) ≤ (n : ℚ) * p - (slider_done p n : ℚ) := by
    rw [hdone]
    exact sub_nonneg.mpr (Int.floor_le _)
  have hfrac1 : (n : ℚ) * p - (slider_done p n : ℚ) < 1 := by
    rw [hdone]
    have := Int.lt_floor_add_one ((n : ℚ) * p)
    linarith
  have h8 : (0 : ℚ) ≤ ((n : ℚ) * p - (slider_done p n : ℚ)) * 8 := by nlinarith
  unfold slider_part_block
  rw [pytrunc_eq_floor h8]
  refine ⟨Int.floor_nonneg.mpr h8, ?_⟩
  have hlt8 : ((n : ℚ) * p - (slider_done p n : ℚ)) * 8 < 8 := by nlinarith
  have h7 : ⌊((n : ℚ) * p - (slider_done p n : ℚ)) * 8⌋ < (8 : ℤ) :=
    Int.floor_lt.mpr (by push_cast; linarith)
  omega

theorem get_slider_eq_of_lt {p : ℚ} {L : ℤ} (h : slider_done p (L - 3) < L - 3) :
    get_slider p L =
      '╟' :: ((List.replicate (slider_done p (L - 3)).toNat '█' ++
        [Char.ofNat (0x258F - slider_part_block p (L - 3)).toNat] ++
        List.replicate (L - 3 - slider_done p (L - 3) - 1).toNat ' ') ++ ['╢', ' ']) := by
  unfold get_slider
  simp only [if_pos h, List.append_assoc]

theorem get_slider_eq_of_ge {p : ℚ} {L : ℤ} (h : ¬slider_done p (L - 3) < L - 3) :
    get_slider p L =
      '╟' :: ((List.replicate (slider_done p (L - 3)).toNat '█' ++
        List.replicate (L - 3 - slider_done p (L - 3) - 1).toNat ' ') ++ ['╢', ' ']) := by
  unfold get_slider
  simp only [if_neg h, List.append_assoc]

theorem get_slider_length {p : ℚ} {L : ℤ} (hp0 : 0 ≤ p) (hp1 : p ≤ 1) (hL : 3 ≤ L) :
    (get_slider p L).length = L.toNat := by
  have hn : (0 : ℤ) ≤ L - 3 := by omega
  have hd0 := slider_done_nonneg hp0 hn
  have hdn := slider_done_le hp0 hp1 hn
  by_cases h : slider_done p (L - 3) < L - 3
  · rw [get_slider_eq_of_lt h]
    simp only [List.length_cons, List.length_append, List.length_replicate,
      List.length_singleton, List.length_nil]
    omega
  · rw [get_slider_eq_of_ge h]
    simp only [List.length_cons, List.length_append, List.length_replicate,
      List.length_nil]
    omega

/-! ## Counting full-block cells in the slider -/

theorem boundary_char_facts {k : ℤ} (h0 : 0 ≤ k) (h7 : k ≤ 7) :
    (Char.ofNat (0x258F - k).toNat = '█' ↔ k = 7) ∧
    Char.ofNat (0x258F - k).toNat ≠ ' ' ∧
    (k = 0 → Char.ofNat (0x258F - k).toNat = '▏') := by
  interval_cases k <;> exact ⟨by decide, by decide, by decide⟩

theorem count_full_of_nonpos {p : ℚ} {L : ℤ} (hp0 : 0 ≤ p) (hp1 : p ≤ 1)
    (hn : L - 3 ≤ 0) : List.count '█' (get_slider p L) = 0 := by
  have hge := not_lt.mpr (le_slider_done hp0 hp1 hn)
  rw [get_slider_eq_of_ge hge]
  have hd : (slider_done p (L - 3)).toNat = 0 := by
    have := slider_done_nonpos hp0 hn
    omega
  rw [hd]
  rw [List.count_eq_zero]
  intro hmem
  simp only [List.mem_cons, List.mem_append, List.mem_replicate, List.mem_singleton,
    List.replicate_zero, List.not_mem_nil] at hmem
  rcases hmem with h | ⟨h | ⟨-, h⟩⟩ | h | h <;> exact absurd h (by decide)

theorem count_full_formula {p : ℚ} {L : ℤ} (hp0 : 0 ≤ p) (hp1 : p ≤ 1)
    (hn : 0 < L - 3) :
    List.count '█' (get_slider p L) =
      (⌊8 * ((L - 3 : ℤ) : ℚ) * p⌋ + 1).toNat / 8 := by
  set n : ℤ := L - 3 with hnL
  have hnn : (0 : ℤ) ≤ n := hn.le
  have hd0 := slider_done_nonneg hp0 hnn
  have hdn := slider_done_le hp0 hp1 hnn
  have hnp : (0 : ℚ) ≤ (n : ℚ) * p := mul_nonneg (by exact_mod_cast hnn) hp0
  have hdone : slider_done p n = ⌊(n : ℚ) * p⌋ := pytrunc_eq_floor hnp
  have hfl : ((slider_done p n : ℤ) : ℚ) ≤ (n : ℚ) * p := by
    rw [hdone]; exact_mod_cast Int.floor_le _
  have hfu : (n : ℚ) * p < (slider_done p n : ℚ) + 1 := by
    rw [hdone]; exact Int.lt_floor_add_one _
  set k : ℤ := ⌊8 * (n : ℚ) * p⌋ with hk
  have hk1 : 8 * slider_done p n ≤ k := by
    rw [hk]
    apply Int.le_floor.mpr
    push_cast
    nlinarith
  have hk2 : k < 8 * slider_done p n + 8 := by
    rw [hk]
    have : 8 * (n : ℚ) * p < ((8 * slider_done p n + 8 : ℤ) : ℚ) := by push_cast; nlinarith
    exact Int.floor_lt.mpr this
  have hk3 : k ≤ 8 * n := by
    rw [hk]
    have h8n : 8 * (n : ℚ) * p ≤ ((8 * n : ℤ) : ℚ) := by
      push_cast
      nlinarith [mul_le_of_le_one_right (show (0:ℚ) ≤ 8 * (n:ℚ) by positivity) hp1]
    calc ⌊8 * (n : ℚ) * p⌋ ≤ ⌊((8 * n : ℤ) : ℚ)⌋ := Int.floor_le_floor h8n
    _ = 8 * n := Int.floor_intCast _
  by_cases hlt : slider_done p n < n
  · obtain ⟨hb0, hb7⟩ := slider_part_block_bounds hp0 hp1 hlt
    have hpart : slider_part_block p n = k - 8 * slider_done p n := by
      unfold slider_part_block
      have hfr : (0 : ℚ) ≤ ((n : ℚ) * p - (slider_done p n : ℚ)) * 8 := by nlinarith
      rw [pytrunc_eq_floor hfr]
      have heq : ((n : ℚ) * p - (slider_done p n : ℚ)) * 8 =
          8 * (n : ℚ) * p - ((8 * slider_done p n : ℤ) : ℚ) := by push_cast; ring
      rw [heq, Int.floor_sub_int, ← hk]
    rw [hnL] at hlt
    rw [get_slider_eq_of_lt hlt]
    rw [← hnL]
    have b1 : (('█' : Char) == '█') = true := by decide
    have b2 : ((' ' : Char) == '█') = false := by decide
    have b3 : (('╟' : Char) == '█') = false := by decide
    have b4 : (('╢' : Char) == '█') = false := by decide
    simp only [List.count_cons, List.count_append, List.count_replicate,
      List.count_nil, b1, b2, b3, b4, if_true, if_false, Bool.false_eq_true]
    by_cases hp7 : slider_part_block p n = 7
    · have hch : Char.ofNat (0x258F - slider_part_block p n).toNat = '█' :=
        (boundary_char_facts hb0 hb7).1.mpr hp7
      rw [hch]
      simp only [b1, if_true]
      omega
    · have hch : ¬Char.ofNat (0x258F - slider_part_block p n).toNat = '█' :=
        fun h => hp7 ((boundary_char_facts hb0 hb7).1.mp h)
      have hbe : ((Char.ofNat (0x258F - slider_part_block p n).toNat == '█')) = false := by
        rw [beq_eq_false_iff_ne]
        exact hch
      rw [hbe]
      simp only [if_false, Bool.false_eq_true]
      omega
  · have hde : slider_done p n = n := le_antisymm hdn (not_lt.mp hlt)
    rw [hnL] at hlt
    rw [get_slider_eq_of_ge hlt]
    rw [← hnL]
    have b1 : (('█' : Char) == '█') = true := by decide
    have b2 : ((' ' : Char) == '█') = false := by decide
    have b3 : (('╟' : Char) == '█') = false := by decide
    have b4 : (('╢' : Char) == '█') = false := by decide
    simp only [List.count_cons, List.count_append, List.count_replicate,
      List.count_nil, b1, b2, b3, b4, if_true, if_false, Bool.false_eq_true]
    omega

/-! ## Fields other than the percentage do not depend on the percentage -/

theorem fields_ignore_percentage (pb : PB) (q : ℚ) :
    processed_field { pb with percentage := q } = processed_field pb ∧
    speed_field { pb with percentage := q } = speed_field pb ∧
    eta_field { pb with percentage := q } = eta_field pb := by
  refine ⟨rfl, rfl, rfl⟩

/-! ## Characters that cannot occur in the rendered fields -/

theorem not_mem_replicate_of_ne {c b : Char} (h : c ≠ b) (n : ℕ) :
    c ∉ List.replicate n b :=
  fun hm => h (List.eq_of_mem_replicate hm)

theorem not_mem_natRepr {c : Char} (hd : ∀ d : ℕ, d < 10 → digitChar d ≠ c) (n : ℕ) :
    c ∉ natRepr n := by
  unfold natRepr
  split
  · intro h
    have hc : c = '0' := List.mem_singleton.mp h
    exact hd 0 (by norm_num) (by rw [show digitChar 0 = '0' from by decide, hc])
  · intro h
    rw [natDigitsAux_eq n n le_rfl] at h
    simp only [List.mem_map, List.mem_reverse] at h
    obtain ⟨d, hdm, hde⟩ := h
    exact hd d (Nat.digits_lt_base (by norm_num) hdm) hde

theorem not_mem_intRepr {c : Char} (hd : ∀ d : ℕ, d < 10 → digitChar d ≠ c)
    (hm : c ≠ '-') (i : ℤ) : c ∉ intRepr i := by
  unfold intRepr
  split
  · intro h
    rcases List.mem_cons.mp h with h | h
    · exact hm h
    · exact not_mem_natRepr hd _ h
  · exact not_mem_natRepr hd _

theorem not_mem_rjust {c : Char} {s : List Char} (hs : c ∉ s) (hsp : c ≠ ' ')
    (w : ℕ) : c ∉ rjust w s := by
  unfold rjust
  intro h
  rcases List.mem_append.mp h with h | h
  · exact hsp (List.eq_of_mem_replicate h)
  · exact hs h

theorem not_mem_ljust {c : Char} {s : List Char} (hs : c ∉ s) (hsp : c ≠ ' ')
    (w : ℕ) : c ∉ ljust w s := by
  unfold ljust
  intro h
  rcases List.mem_append.mp h with h | h
  · exact hs h
  · exact hsp (List.eq_of_mem_replicate h)

theorem not_mem_padZero {c : Char} {s : List Char} (hs : c ∉ s) (h0 : c ≠ '0')
    (w : ℕ) : c ∉ padZero w s := by
  unfold padZero
  intro h
  rcases List.mem_append.mp h with h | h
  · exact h0 (List.eq_of_mem_replicate h)
  · exact hs h

theorem not_mem_fixed2 {c : Char} (hd : ∀ d : ℕ, d < 10 → digitChar d ≠ c)
    (hm : c ≠ '-') (hdot : c ≠ '.') (q : ℚ) : c ∉ fixed2 q := by
  have h0 : c ≠ '0' := by
    intro h
    exact hd 0 (by norm_num) (by rw [show digitChar 0 = '0' from by decide, h])
  unfold fixed2
  intro h
  rcases List.mem_append.mp h with h | h
  · exact not_mem_intRepr hd hm _ h
  · rcases List.mem_cons.mp h with h | h
    · exact hdot h
    · exact not_mem_padZero (not_mem_natRepr hd _) h0 _ h

theorem not_mem_optNatRepr {c : Char} (hd : ∀ d : ℕ, d < 10 → digitChar d ≠ c)
    (hnone : c ∉ (['N', 'o', 'n', 'e'] : List Char)) (o : Option ℕ) :
    c ∉ optNatRepr o := by
  cases o with
  | none => exact hnone
  | some n => exact not_mem_natRepr hd n

theorem not_mem_processed_field {c : Char} (pb : PB)
    (hd : ∀ d : ℕ, d < 10 → digitChar d ≠ c)
    (hsp : c ∉ ([' ', '/', 'N', 'o', 'n', 'e'] : List Char)) :
    c ∉ processed_field pb := by
  simp only [List.mem_cons, List.mem_singleton, not_or] at hsp
  obtain ⟨hspc, hslash, hN, hoo, hn, he, -⟩ := hsp
  unfold processed_field
  split
  · exact List.not_mem_nil c
  · apply not_mem_rjust _ hspc
    intro h
    rcases List.mem_append.mp h with h | h
    · exact not_mem_optNatRepr hd (by simp [hN, hoo, hn, he]) _ h
    · rcases List.mem_cons.mp h with h | h
      · exact hslash h
      · rcases List.mem_append.mp h with h | h
        · exact not_mem_natRepr hd _ h
        · rcases List.mem_cons.mp h with h | h
          · exact hspc h
          · exact hspc (List.mem_singleton.mp h)

theorem not_mem_speed_field {c : Char} (pb : PB)
    (hd : ∀ d : ℕ, d < 10 → digitChar d ≠ c)
    (hsp : c ∉ ([' ', '-', '.', '/', 'i', 't', 's'] : List Char)) :
    c ∉ speed_field pb := by
  simp only [List.mem_cons, List.mem_singleton, not_or] at hsp
  obtain ⟨hspc, hm, hdot, hslash, hi, ht, hs, -⟩ := hsp
  have hits : ∀ x ∈ ([' ', 'i', 't', '/', 's', ' ', ' '] : List Char), c ≠ x := by
    intro x hx
    fin_cases hx <;> assumption
  have hsit : ∀ x ∈ ([' ', 's', '/', 'i', 't', ' ', ' '] : List Char), c ≠ x := by
    intro x hx
    fin_cases hx <;> assumption
  unfold speed_field
  split
  · exact List.not_mem_nil c
  · split
    · intro h
      rcases List.mem_append.mp h with h | h
      · exact not_mem_fixed2 hd hm hdot _ h
      · exact hits c h rfl
    · apply not_mem_rjust _ hspc
      intro h
      rcases List.mem_append.mp h with h | h
      · exact not_mem_fixed2 hd hm hdot _ h
      · exact hsit c h rfl

theorem not_mem_eta_field {c : Char} (pb : PB)
    (hd : ∀ d : ℕ, d < 10 → digitChar d ≠ c)
    (hsp : c ∉ ([' ', '-', 'm', 's'] : List Char)) :
    c ∉ eta_field pb := by
  simp only [List.mem_cons, List.mem_singleton, not_or] at hsp
  obtain ⟨hspc, hminus, hm, hs, -⟩ := hsp
  unfold eta_field
  split
  · apply not_mem_ljust _ hspc
    intro h
    rcases List.mem_append.mp h with h | h
    · exact not_mem_intRepr hd hminus _ h
    · rcases List.mem_cons.mp h with h | h
      · exact hm h
      · rcases List.mem_cons.mp h with h | h
        · exact hspc h
        · rcases List.mem_append.mp h with h | h
          · exact not_mem_intRepr hd hminus _ h
          · exact hs (List.mem_singleton.mp h)
  · exact List.not_mem_nil c

theorem not_mem_get_slider {c : Char} {p : ℚ} (hp0 : 0 ≤ p) (hp1 : p ≤ 1)
    (hblock : ∀ k : ℕ, 0x2588 ≤ k → k ≤ 0x258F → Char.ofNat k ≠ c)
    (hsp : c ∉ ([' ', '╟', '╢'] : List Char)) (L : ℤ) : c ∉ get_slider p L := by
  simp only [List.mem_cons, List.mem_singleton, not_or] at hsp
  obtain ⟨hspc, hopen, hclose, -⟩ := hsp
  have hfull : c ≠ '█' := fun h => hblock 0x2588 (by norm_num) (by norm_num)
    (by rw [show Char.ofNat 0x2588 = '█' from by decide, h])
  by_cases hlt : slider_done p (L - 3) < L - 3
  · rw [get_slider_eq_of_lt hlt]
    obtain ⟨hb0, hb7⟩ := slider_part_block_bounds hp0 hp1 hlt
    intro h
    rcases List.mem_cons.mp h with h | h
    · exact hopen h
    · rcases List.mem_append.mp h with h | h
      · rcases List.mem_append.mp h with h | h
        · rcases List.mem_append.mp h with h | h
          · exact hfull (List.eq_of_mem_replicate h)
          · refine hblock (0x258F - slider_part_block p (L - 3)).toNat
              (by omega) (by omega) ?_
            rw [List.mem_singleton.mp h]
        · exact hspc (List.eq_of_mem_replicate h)
      · rcases List.mem_cons.mp h with h | h
        · exact hclose h
        · exact hspc (List.mem_singleton.mp h)
  · rw [get_slider_eq_of_ge hlt]
    intro h
    rcases List.mem_cons.mp h with h | h
    · exact hopen h
    · rcases List.mem_append.mp h with h | h
      · rcases List.mem_append.mp h with h | h
        · exact hfull (List.eq_of_mem_replicate h)
        · exact hspc (List.eq_of_mem_replicate h)
      · rcases List.mem_cons.mp h with h | h
        · exact hclose h
        · exact hspc (List.mem_singleton.mp h)

theorem not_mem_percentage_left {c : Char}
    (hd : ∀ d : ℕ, d < 10 → digitChar d ≠ c) (hm : c ≠ '-') (hspc : c ≠ ' ')
    (p : ℚ) : c ∉ rjust 3 (intRepr (pytrunc (p * 100))) :=
  not_mem_rjust (not_mem_intRepr hd hm _) hspc 3

/-! ## The four-way layout branch as a single characterization -/

theorem keeps_counter_imp_speed {pb : PB} (h : keeps_counter pb) : keeps_speed pb := by
  unfold keeps_counter at h
  unfold keeps_speed
  omega

theorem keeps_speed_imp_eta {pb : PB} (h : keeps_speed pb) : keeps_eta pb := by
  unfold keeps_speed at h
  unfold keeps_eta
  omega

theorem compute_branch_characterization (pb : PB) :
    compute_progress_bar_string pb =
      percentage_field pb.percentage ++
      (get_slider pb.percentage (slider_allotted pb) ++
      ((if keeps_counter pb then processed_field pb else []) ++
       ((if keeps_speed pb then speed_field pb else []) ++
        (if keeps_eta pb then eta_field pb else [])))) := by
  unfold slider_allotted
  by_cases hc : keeps_counter pb
  · have hs := keeps_counter_imp_speed hc
    have he := keeps_speed_imp_eta hs
    unfold keeps_counter at hc
    unfold keeps_speed at hs
    unfold keeps_eta at he
    simp only [compute_progress_bar_string, keeps_counter, keeps_speed, keeps_eta,
      hc, hs, he, if_true, List.append_assoc]
  · by_cases hs : keeps_speed pb
    · have he := keeps_speed_imp_eta hs
      unfold keeps_counter at hc
      unfold keeps_speed at hs
      unfold keeps_eta at he
      simp only [compute_progress_bar_string, keeps_counter, keeps_speed, keeps_eta,
        hc, hs, he, if_true, if_false, List.append_assoc, List.nil_append, sub_zero]
    · by_cases he : keeps_eta pb
      · have hc' := hc
        unfold keeps_counter at hc
        unfold keeps_speed at hs
        unfold keeps_eta at he
        simp only [compute_progress_bar_string, keeps_counter, keeps_speed, keeps_eta,
          hc, hs, he, if_true, if_false, List.append_assoc, List.nil_append, sub_zero]
      · unfold keeps_counter at hc
        unfold keeps_speed at hs
        unfold keeps_eta at he
        simp only [compute_progress_bar_string, keeps_counter, keeps_speed, keeps_eta,
          hc, hs, he, if_false, List.append_assoc, List.nil_append, List.append_nil,
          sub_zero]

/-! ## Claims about the session lifecycle -/

/-- C3 (counterexample): the scoped session construct (`__enter__`) started
while another session is active (`_lock = true`) does NOT fail: it succeeds
and installs the interceptor, contradicting the claim that starting any
session while one is active always fails. -/
theorem C3_counterexample :
    enter_session { lock := true, stdout_restored := true } =
      ({ lock := true, stdout_restored := false }, none) := rfl

/-- C3 (amended): only the iteration helper (`__iter__`) enforces mutual
exclusion — it fails by assertion when the lock is held and succeeds,
taking the lock, when it is free; the scoped construct (`__enter__`)
performs no lock check and always succeeds; after a helper session
completes normally, starting a new helper session succeeds. -/
theorem C3_session_mutual_exclusion :
    (∀ s : SessionState, s.lock = true → iter_start true s = (s, some .assertionError)) ∧
    (∀ s : SessionState, s.lock = false →
      iter_start true s = ({ s with lock := true }, none)) ∧
    (∀ s : SessionState, enter_session s = ({ s with stdout_restored := false }, none)) ∧
    (∀ s : SessionState, s.lock = false →
      (iter_start true (iter_generator true .normal s).1).2 = none) := by
  refine ⟨fun s h => ?_, fun s h => ?_, fun s => rfl, fun s h => ?_⟩
  · simp [iter_start, h]
  · simp [iter_start, h]
  · simp [iter_generator, iter_start, enter_session, exit_session, h]

/-- C3 witness: the amended statement at concrete session states. -/
theorem C3_session_mutual_exclusion_witness :
    iter_start true { lock := true, stdout_restored := false } =
      ({ lock := true, stdout_restored := false }, some .assertionError) ∧
    iter_start true { lock := false, stdout_restored := true } =
      ({ lock := true, stdout_restored := true }, none) ∧
    (iter_start true
      (iter_generator true .normal { lock := false, stdout_restored := true }).1).2 = none :=
  ⟨C3_session_mutual_exclusion.1 _ rfl, C3_session_mutual_exclusion.2.1 _ rfl,
   C3_session_mutual_exclusion.2.2.2 _ rfl⟩

/-- C4: when the enclosed work raises, `__exit__` restores the original
output path, but `ProgressBar._lock = False` (line 84, outside the `with`
block) never runs: the lock is still held while the failure propagates.
This contradicts the claim (and §5 of the spec) that the lock is released
on every exit path; the code is in the wrong. -/
theorem C4_lock_leak_on_raise :
    iter_generator true .raises { lock := false, stdout_restored := true } =
      ({ lock := true, stdout_restored := true }, some .workError) := rfl

/-- C5: for an iterable with no determinable length (`len` unavailable), the
`except` branch of lines 68-71 runs `assert "The iterable must have a
length."` — an assert on a non-empty, hence truthy, string — so no error is
raised at all: `total_items` is left at 0 and iteration proceeds, instead of
failing immediately as the claim (rightly) demands. -/
theorem C5_unsized_iterable_not_rejected :
    compute_total_items none = (0, none) ∧
    py_assert (py_truthy assert_msg) = none := ⟨rfl, rfl⟩

/-- C7: `set_progress` with a value outside [0,1] fails the range assertion,
which is the first statement of the method: the state (in particular the
stored percentage) is unchanged and nothing is written. -/
theorem C7_set_progress_rejects (pb : PB) (oc : ℕ) (p : ℚ) (h : p < 0 ∨ 1 < p) :
    set_progress pb oc p = ((pb, []), some .assertionError) := by
  have hne : ¬(0 ≤ p ∧ p ≤ 1) := by
    rcases h with h | h
    · exact fun hc => absurd hc.1 (not_le.mpr h)
    · exact fun hc => absurd hc.2 (not_le.mpr h)
  simp [set_progress, hne]

/-- C7 witness: `set_progress 2` on a concrete state fails and leaves the
state unchanged. -/
theorem C7_set_progress_rejects_witness :
    set_progress ⟨1/2, 0, 30, true, none, none, none⟩ 30 2 =
      ((⟨1/2, 0, 30, true, none, none, none⟩, []), some .assertionError) :=
  C7_set_progress_rejects _ 30 2 (Or.inr (by norm_num))

/-! ## Claims about the renderer layout -/

/-- C1 (counterexample): at terminal width 5 (which the claim admits, `w ≥ 5`)
the rendered string has length 7, exceeding the width: the percentage field
(4 chars) plus the delimiters `╟╢ ` (3 chars) never shrink below 7. -/
theorem C1_counterexample :
    (compute_progress_bar_string ⟨0, 0, 5, true, none, none, none⟩).length = 7 ∧
    ¬(7 ≤ 5) := ⟨by decide, by decide⟩

/-- C1 (amended): for width `w ≥ 7` the rendered string always has length
exactly `w` (hence ≤ `w`, and in particular exactly `w` in the full-width
branch); and for `w ≥ 5` the slider is allotted a width that is never below
zero. -/
theorem C1_rendered_width (pb : PB) (h0 : 0 ≤ pb.percentage)
    (h1 : pb.percentage ≤ 1) (h5 : 5 ≤ pb.columns) :
    (7 ≤ pb.columns → (compute_progress_bar_string pb).length = pb.columns) ∧
    0 ≤ slider_allotted pb ∧
    ∃ rest : List Char,
      compute_progress_bar_string pb =
        percentage_field pb.percentage ++
          (get_slider pb.percentage (slider_allotted pb) ++ rest) := by
  have hpct := percentage_field_length h0 h1
  have hchar := compute_branch_characterization pb
  unfold slider_allotted at hchar ⊢
  rw [hpct] at hchar ⊢
  by_cases hc : keeps_counter pb
  · have hs := keeps_counter_imp_speed hc
    have he := keeps_speed_imp_eta hs
    simp only [hc, hs, he, if_true] at hchar ⊢
    unfold keeps_counter at hc
    rw [hpct] at hc
    unfold MIN_PROGRESS_BAR_LENGTH at hc
    refine ⟨fun h7 => ?_, by omega, _, hchar⟩
    rw [hchar, List.length_append, List.length_append,
      get_slider_length h0 h1 (by omega)]
    simp only [List.length_append]
    rw [hpct]
    omega
  · by_cases hs : keeps_speed pb
    · have he := keeps_speed_imp_eta hs
      simp only [hc, hs, he, if_true, if_false, sub_zero] at hchar ⊢
      unfold keeps_speed at hs
      rw [hpct] at hs
      unfold MIN_PROGRESS_BAR_LENGTH at hs
      refine ⟨fun h7 => ?_, by omega, _, hchar⟩
      rw [hchar, List.length_append, List.length_append,
        get_slider_length h0 h1 (by omega)]
      simp only [List.length_append, List.length_nil]
      rw [hpct]
      omega
    · by_cases he : keeps_eta pb
      · simp only [hc, hs, he, if_true, if_false, sub_zero] at hchar ⊢
        unfold keeps_eta at he
        rw [hpct] at he
        unfold MIN_PROGRESS_BAR_LENGTH at he
        refine ⟨fun h7 => ?_, by omega, _, hchar⟩
        rw [hchar, List.length_append, List.length_append,
          get_slider_length h0 h1 (by omega)]
        simp only [List.length_append, List.length_nil]
        rw [hpct]
        omega
      · simp only [hc, hs, he, if_false, sub_zero] at hchar ⊢
        refine ⟨fun h7 => ?_, by omega, _, hchar⟩
        rw [hchar, List.length_append, List.length_append,
          get_slider_length h0 h1 (by omega)]
        simp only [List.length_append, List.length_nil]
        rw [hpct]
        omega

/-- C1 witness: the amended statement at a concrete state of width 30. -/
theorem C1_rendered_width_witness :
    ((7 : ℕ) ≤ 30 →
      (compute_progress_bar_string ⟨1/2, 0, 30, true, none, none, none⟩).length = 30) ∧
    0 ≤ slider_allotted ⟨1/2, 0, 30, true, none, none, none⟩ ∧
    ∃ rest : List Char,
      compute_progress_bar_string ⟨1/2, 0, 30, true, none, none, none⟩ =
        percentage_field (1/2) ++
          (get_slider (1/2) (slider_allotted ⟨1/2, 0, 30, true, none, none, none⟩) ++
            rest) :=
  C1_rendered_width ⟨1/2, 0, 30, true, none, none, none⟩
    (by norm_num) (by norm_num) (by norm_num)

/-- C2 (counterexample): at width 71 with 50 of 100 items processed at
1.00 it/s, the rendered bar contains the ETA field `0m 50s` but not the
counter `50/100`: the processed/total counter is dropped while ETA (and
throughput) are kept, contradicting the claimed order in which ETA drops
first and the counter last. -/
theorem C2_counterexample :
    occurs ['0', 'm', ' ', '5', '0', 's']
      (compute_progress_bar_string
        ⟨1/2, 0, 71, true, some 100, some 50, some 50⟩) = true ∧
    occurs ['5', '0', '/', '1', '0', '0']
      (compute_progress_bar_string
        ⟨1/2, 0, 71, true, some 100, some 50, some 50⟩) = false :=
  ⟨by decide, by decide⟩

/-- C2 (amended): the deterministic dropping order under shrinking width is
the reverse of the claimed one — the processed/total counter is dropped
first, then throughput, then the ETA; a field is kept exactly when the
percentage field, the later-dropped fields still kept, its own width and the
40-character minimum slider length fit within the width, and the slider
receives all remaining width. -/
theorem C2_field_drop_order (pb : PB) :
    (keeps_counter pb → keeps_speed pb) ∧ (keeps_speed pb → keeps_eta pb) ∧
    compute_progress_bar_string pb =
      percentage_field pb.percentage ++
      (get_slider pb.percentage (slider_allotted pb) ++
      ((if keeps_counter pb then processed_field pb else []) ++
       ((if keeps_speed pb then speed_field pb else []) ++
        (if keeps_eta pb then eta_field pb else [])))) :=
  ⟨keeps_counter_imp_speed, keeps_speed_imp_eta, compute_branch_characterization pb⟩

/-! ## Claims about the percentage field and slider monotonicity -/

/-- C6 (counterexample): at p = 999/1000 the rendered field shows ` 99%`,
but p scaled to percent and rounded to the nearest whole percent is 100:
the code truncates (`int(...)`), it does not round to nearest. -/
theorem C6_counterexample :
    (compute_progress_bar_string ⟨999/1000, 0, 50, true, none, none, none⟩).take 4 =
      [' ', '9', '9', '%'] ∧
    round ((999 : ℚ) / 1000 * 100) = 100 ∧ (99 : ℤ) ≠ 100 :=
  ⟨by decide, by decide, by decide⟩

/-- C6 (amended): for every p in [0,1] the rendered bar contains exactly one
`%`; its first four characters are the percentage field, a 3-character
right-aligned integer percent followed by `%`; and the integer shown is
`⌊100·p⌋`, i.e. p scaled to percent and truncated toward zero, not rounded
to nearest. -/
theorem C6_percentage_field (pb : PB) (h0 : 0 ≤ pb.percentage)
    (h1 : pb.percentage ≤ 1) :
    List.count '%' (compute_progress_bar_string pb) = 1 ∧
    (compute_progress_bar_string pb).take 4 = percentage_field pb.percentage ∧
    percentage_field pb.percentage =
      rjust 3 (natRepr ⌊pb.percentage * 100⌋.toNat) ++ ['%'] := by
  have hd : ∀ d : ℕ, d < 10 → digitChar d ≠ '%' := by
    intro d h
    interval_cases d <;> decide
  have hblock : ∀ k : ℕ, 0x2588 ≤ k → k ≤ 0x258F → Char.ofNat k ≠ '%' := by
    intro k hk1 hk2
    interval_cases k <;> decide
  have hpct := percentage_field_length h0 h1
  have hchar := compute_branch_characterization pb
  have hp100 : (0 : ℚ) ≤ pb.percentage * 100 := by positivity
  refine ⟨?_, ?_, ?_⟩
  · rw [hchar, List.count_append, List.count_append]
    have hcp : List.count '%' (percentage_field pb.percentage) = 1 := by
      unfold percentage_field
      rw [List.count_append,
        List.count_eq_zero.mpr (not_mem_percentage_left hd (by decide) (by decide) _)]
      decide
    have hcs : List.count '%' (get_slider pb.percentage (slider_allotted pb)) = 0 :=
      List.count_eq_zero.mpr (not_mem_get_slider h0 h1 hblock (by decide) _)
    have hc1 : List.count '%'
        (if keeps_counter pb then processed_field pb else []) = 0 := by
      split
      · exact List.count_eq_zero.mpr (not_mem_processed_field pb hd (by decide))
      · rfl
    have hc2 : List.count '%'
        (if keeps_speed pb then speed_field pb else []) = 0 := by
      split
      · exact List.count_eq_zero.mpr (not_mem_speed_field pb hd (by decide))
      · rfl
    have hc3 : List.count '%'
        (if keeps_eta pb then eta_field pb else []) = 0 := by
      split
      · exact List.count_eq_zero.mpr (not_mem_eta_field pb hd (by decide))
      · rfl
    simp only [List.count_append]
    rw [hcp, hcs, hc1, hc2, hc3]
  · rw [hchar, ← hpct, List.take_left]
  · unfold percentage_field
    rw [pytrunc_eq_floor hp100]
    have hnn : 0 ≤ ⌊pb.percentage * 100⌋ := Int.floor_nonneg.mpr hp100
    unfold intRepr
    rw [if_neg (by omega)]
    rw [show ⌊pb.percentage * 100⌋.natAbs = ⌊pb.percentage * 100⌋.toNat from by omega]

/-- C6 witness: the amended statement at p = 1/2, width 50. -/
theorem C6_percentage_field_witness :
    List.count '%'
      (compute_progress_bar_string ⟨1/2, 0, 50, true, none, none, none⟩) = 1 ∧
    (compute_progress_bar_string ⟨1/2, 0, 50, true, none, none, none⟩).take 4 =
      percentage_field (1/2) ∧
    percentage_field (1/2) = rjust 3 (natRepr ⌊(1/2 : ℚ) * 100⌋.toNat) ++ ['%'] :=
  C6_percentage_field ⟨1/2, 0, 50, true, none, none, none⟩ (by norm_num) (by norm_num)

/-- C8: for a fixed state (same width and metrics), the number of full-block
characters in the rendered bar is monotone non-decreasing in the
percentage. -/
theorem C8_full_cells_monotone (pb : PB) (p1 p2 : ℚ) (h0 : 0 ≤ p1)
    (h12 : p1 ≤ p2) (h1 : p2 ≤ 1) :
    List.count '█' (compute_progress_bar_string { pb with percentage := p1 }) ≤
      List.count '█' (compute_progress_bar_string { pb with percentage := p2 }) := by
  have h01 : p1 ≤ 1 := h12.trans h1
  have h02 : 0 ≤ p2 := h0.trans h12
  have hd : ∀ d : ℕ, d < 10 → digitChar d ≠ '█' := by
    intro d h
    interval_cases d <;> decide
  have hcount : ∀ (q : ℚ), 0 ≤ q → q ≤ 1 →
      List.count '█' (compute_progress_bar_string { pb with percentage := q }) =
        List.count '█' (get_slider q (slider_allotted { pb with percentage := q })) := by
    intro q hq0 hq1
    have hchar := compute_branch_characterization { pb with percentage := q }
    rw [show ({ pb with percentage := q } : PB).percentage = q from rfl] at hchar
    rw [hchar, List.count_append, List.count_append, List.count_append]
    have hcp : List.count '█' (percentage_field q) = 0 := by
      unfold percentage_field
      rw [List.count_append,
        List.count_eq_zero.mpr (not_mem_percentage_left hd (by decide) (by decide) _)]
      decide
    have hc1 : List.count '█'
        (if keeps_counter { pb with percentage := q } then
          processed_field { pb with percentage := q } else []) = 0 := by
      split
      · exact List.count_eq_zero.mpr (not_mem_processed_field _ hd (by decide))
      · rfl
    have hc2 : List.count '█'
        (if keeps_speed { pb with percentage := q } then
          speed_field { pb with percentage := q } else []) = 0 := by
      split
      · exact List.count_eq_zero.mpr (not_mem_speed_field _ hd (by decide))
      · rfl
    have hc3 : List.count '█'
        (if keeps_eta { pb with percentage := q } then
          eta_field { pb with percentage := q } else []) = 0 := by
      split
      · exact List.count_eq_zero.mpr (not_mem_eta_field _ hd (by decide))
      · rfl
    simp only [List.count_append]
    rw [hcp, hc1, hc2, hc3]
    omega
  rw [hcount p1 h0 h01, hcount p2 h02 h1]
  have hpf1 : (percentage_field p1).length = 4 := percentage_field_length h0 h01
  have hpf2 : (percentage_field p2).length = 4 := percentage_field_length h02 h1
  have hkc : keeps_counter { pb with percentage := p1 } ↔
      keeps_counter { pb with percentage := p2 } := by
    unfold keeps_counter
    rw [show ({ pb with percentage := p1 } : PB).percentage = p1 from rfl,
      show ({ pb with percentage := p2 } : PB).percentage = p2 from rfl,
      show processed_field { pb with percentage := p1 } = processed_field pb from rfl,
      show processed_field { pb with percentage := p2 } = processed_field pb from rfl,
      show speed_field { pb with percentage := p1 } = speed_field pb from rfl,
      show speed_field { pb with percentage := p2 } = speed_field pb from rfl,
      show eta_field { pb with percentage := p1 } = eta_field pb from rfl,
      show eta_field { pb with percentage := p2 } = eta_field pb from rfl,
      show ({ pb with percentage := p1 } : PB).columns = pb.columns from rfl,
      show ({ pb with percentage := p2 } : PB).columns = pb.columns from rfl,
      hpf1, hpf2]
  have hks : keeps_speed { pb with percentage := p1 } ↔
      keeps_speed { pb with percentage := p2 } := by
    unfold keeps_speed
    rw [show ({ pb with percentage := p1 } : PB).percentage = p1 from rfl,
      show ({ pb with percentage := p2 } : PB).percentage = p2 from rfl,
      show speed_field { pb with percentage := p1 } = speed_field pb from rfl,
      show speed_field { pb with percentage := p2 } = speed_field pb from rfl,
      show eta_field { pb with percentage := p1 } = eta_field pb from rfl,
      show eta_field { pb with percentage := p2 } = eta_field pb from rfl,
      show ({ pb with percentage := p1 } : PB).columns = pb.columns from rfl,
      show ({ pb with percentage := p2 } : PB).columns = pb.columns from rfl,
      hpf1, hpf2]
  have hke : keeps_eta { pb with percentage := p1 } ↔
      keeps_eta { pb with percentage := p2 } := by
    unfold keeps_eta
    rw [show ({ pb with percentage := p1 } : PB).percentage = p1 from rfl,
      show ({ pb with percentage := p2 } : PB).percentage = p2 from rfl,
      show eta_field { pb with percentage := p1 } = eta_field pb from rfl,
      show eta_field { pb with percentage := p2 } = eta_field pb from rfl,
      show ({ pb with percentage := p1 } : PB).columns = pb.columns from rfl,
      show ({ pb with percentage := p2 } : PB).columns = pb.columns from rfl,
      hpf1, hpf2]
  have hA : slider_allotted { pb with percentage := p1 } =
      slider_allotted { pb with percentage := p2 } := by
    unfold slider_allotted
    rw [show ({ pb with percentage := p1 } : PB).percentage = p1 from rfl,
      show ({ pb with percentage := p2 } : PB).percentage = p2 from rfl,
      show processed_field { pb with percentage := p1 } = processed_field pb from rfl,
      show processed_field { pb with percentage := p2 } = processed_field pb from rfl,
      show speed_field { pb with percentage := p1 } = speed_field pb from rfl,
      show speed_field { pb with percentage := p2 } = speed_field pb from rfl,
      show eta_field { pb with percentage := p1 } = eta_field pb from rfl,
      show eta_field { pb with percentage := p2 } = eta_field pb from rfl,
      show ({ pb with percentage := p1 } : PB).columns = pb.columns from rfl,
      show ({ pb with percentage := p2 } : PB).columns = pb.columns from rfl,
      hpf1, hpf2]
    simp only [hkc, hks, hke]
  rw [hA]
  by_cases hn : 0 < slider_allotted { pb with percentage := p2 } - 3
  · rw [count_full_formula h0 h01 hn, count_full_formula h02 h1 hn]
    have hL0 : (0 : ℚ) ≤ ((slider_allotted { pb with percentage := p2 } - 3 : ℤ) : ℚ) := by
      exact_mod_cast hn.le
    have hfl : ⌊8 * ((slider_allotted { pb with percentage := p2 } - 3 : ℤ) : ℚ) * p1⌋ ≤
        ⌊8 * ((slider_allotted { pb with percentage := p2 } - 3 : ℤ) : ℚ) * p2⌋ := by
      apply Int.floor_le_floor
      nlinarith
    omega
  · rw [count_full_of_nonpos h0 h01 (by omega), count_full_of_nonpos h02 h1 (by omega)]

/-- C8 witness: at width 50, the bar at p = 1/4 has no more full blocks than
at p = 1/2. -/
theorem C8_full_cells_monotone_witness :
    List.count '█' (compute_progress_bar_string ⟨1/4, 0, 50, true, none, none, none⟩) ≤
      List.count '█' (compute_progress_bar_string ⟨1/2, 0, 50, true, none, none, none⟩) :=
  C8_full_cells_monotone ⟨0, 0, 50, true, none, none, none⟩ (1/4) (1/2)
    (by norm_num) (by norm_num) (by norm_num)

/-! ## Claim about the boundary glyph of the slider -/

/-- C10: whenever the count of fully covered cells is strictly below the
cell count, `get_slider` emits the boundary glyph
`chr(0x258F - partial_block)`; it is never a blank space, it is the
one-eighth block `▏` when the fractional cell coverage is zero, it is the
full block `█` when the fractional coverage is at least 7/8, and the body
between `╟` and `╢` consists of exactly the full cells, the boundary glyph
and blanks filling the remaining cells. -/
theorem C10_boundary_glyph (p : ℚ) (L : ℤ) (h0 : 0 ≤ p) (h1 : p ≤ 1)
    (hlt : slider_done p (L - 3) < L - 3) :
    get_slider p L =
      '╟' :: ((List.replicate (slider_done p (L - 3)).toNat '█' ++
        [Char.ofNat (0x258F - slider_part_block p (L - 3)).toNat] ++
        List.replicate (L - 3 - slider_done p (L - 3) - 1).toNat ' ') ++ ['╢', ' ']) ∧
    Char.ofNat (0x258F - slider_part_block p (L - 3)).toNat ≠ ' ' ∧
    (slider_part_block p (L - 3) = 0 →
      Char.ofNat (0x258F - slider_part_block p (L - 3)).toNat = '▏') ∧
    ((7 : ℚ) / 8 ≤ ((L - 3 : ℤ) : ℚ) * p - (slider_done p (L - 3) : ℚ) →
      Char.ofNat (0x258F - slider_part_block p (L - 3)).toNat = '█') ∧
    (slider_done p (L - 3)).toNat + 1 + (L - 3 - slider_done p (L - 3) - 1).toNat =
      (L - 3).toNat := by
  obtain ⟨hb0, hb7⟩ := slider_part_block_bounds h0 h1 hlt
  obtain ⟨hiff, hnsp, h18⟩ := boundary_char_facts hb0 hb7
  have hn : 0 < L - 3 := by
    by_contra h
    push_neg at h
    exact absurd hlt (not_lt.mpr (le_slider_done h0 h1 h))
  have hd0 := slider_done_nonneg h0 hn.le
  refine ⟨get_slider_eq_of_lt hlt, hnsp, h18, ?_, by omega⟩
  intro hfrac
  apply hiff.mpr
  have hge : 7 ≤ slider_part_block p (L - 3) := by
    unfold slider_part_block
    have hf0 : (0 : ℚ) ≤
        (((L - 3 : ℤ) : ℚ) * p - (slider_done p (L - 3) : ℚ)) * 8 := by nlinarith
    rw [pytrunc_eq_floor hf0]
    apply Int.le_floor.mpr
    push_cast at hfrac ⊢
    nlinarith
  omega

/-- C10 witness: at p = 1/2 and slider width 11 (8 cells), 4 cells are full,
the boundary glyph is the one-eighth block and three blanks remain. -/
theorem C10_boundary_glyph_witness :
    get_slider (1/2) 11 =
      '╟' :: ((List.replicate (slider_done (1/2) (11 - 3)).toNat '█' ++
        [Char.ofNat (0x258F - slider_part_block (1/2) (11 - 3)).toNat] ++
        List.replicate (11 - 3 - slider_done (1/2) (11 - 3) - 1).toNat ' ') ++
        ['╢', ' ']) ∧
    Char.ofNat (0x258F - slider_part_block (1/2) (11 - 3)).toNat ≠ ' ' ∧
    (slider_part_block (1/2) (11 - 3) = 0 →
      Char.ofNat (0x258F - slider_part_block (1/2) (11 - 3)).toNat = '▏') ∧
    ((7 : ℚ) / 8 ≤ ((11 - 3 : ℤ) : ℚ) * (1/2) - (slider_done (1/2) (11 - 3) : ℚ) →
      Char.ofNat (0x258F - slider_part_block (1/2) (11 - 3)).toNat = '█') ∧
    (slider_done (1/2) (11 - 3)).toNat + 1 +
        (11 - 3 - slider_done (1/2) (11 - 3) - 1).toNat = ((11 - 3 : ℤ)).toNat :=
  C10_boundary_glyph (1/2) 11 (by norm_num) (by norm_num) (by decide)

/-! ## Lemmas on the trace predicates -/

theorem acts_nonneg_append {a b : List Act} (ha : acts_nonneg a = true)
    (hb : acts_nonneg b = true) : acts_nonneg (a ++ b) = true := by
  induction a with
  | nil => simpa using hb
  | cons x t ih =>
      cases x with
      | out s =>
          simp only [List.cons_append, acts_nonneg] at ha ⊢
          exact ih ha
      | set_len n =>
          simp only [List.cons_append, acts_nonneg, Bool.and_eq_true] at ha ⊢
          exact ⟨ha.1, ih ha.2⟩

theorem head_resets_append {t b : List Act} (h : head_resets t = true) :
    head_resets (t ++ b) = true := by
  cases t with
  | nil => simp [head_resets] at h
  | cons x t2 =>
      cases x with
      | out s => simp [head_resets] at h
      | set_len n => simpa [head_resets] using h

theorem resets_append {a b : List Act} (ha : resets_after_newline a = true)
    (hb : resets_after_newline b = true) :
    resets_after_newline (a ++ b) = true := by
  induction a with
  | nil => simpa using hb
  | cons x t ih =>
      cases x with
      | set_len n =>
          simp only [List.cons_append, resets_after_newline] at ha ⊢
          exact ih ha
      | out s =>
          simp only [List.cons_append, resets_after_newline] at ha ⊢
          by_cases hnl : s.any (· = '\n')
          · rw [if_pos hnl] at ha ⊢
            rw [Bool.and_eq_true] at ha ⊢
            exact ⟨head_resets_append ha.1, ih ha.2⟩
          · rw [if_neg hnl] at ha ⊢
            exact ih ha

/-- The rendered bar itself contains no newline character. -/
theorem newline_not_mem_compute (pb : PB) (h0 : 0 ≤ pb.percentage)
    (h1 : pb.percentage ≤ 1) : '\n' ∉ compute_progress_bar_string pb := by
  have hd : ∀ d : ℕ, d < 10 → digitChar d ≠ '\n' := by
    intro d h
    interval_cases d <;> decide
  have hblock : ∀ k : ℕ, 0x2588 ≤ k → k ≤ 0x258F → Char.ofNat k ≠ '\n' := by
    intro k hk1 hk2
    interval_cases k <;> decide
  rw [compute_branch_characterization pb]
  intro hm
  rcases List.mem_append.mp hm with hm | hm
  · unfold percentage_field at hm
    rcases List.mem_append.mp hm with hm | hm
    · exact not_mem_percentage_left hd (by decide) (by decide) _ hm
    · exact absurd (List.mem_singleton.mp hm) (by decide)
  rcases List.mem_append.mp hm with hm | hm
  · exact not_mem_get_slider h0 h1 hblock (by decide) _ hm
  rcases List.mem_append.mp hm with hm | hm
  · revert hm
    split
    · exact not_mem_processed_field _ hd (by decide)
    · exact List.not_mem_nil _
  rcases List.mem_append.mp hm with hm | hm
  · revert hm
    split
    · exact not_mem_speed_field _ hd (by decide)
    · exact List.not_mem_nil _
  · revert hm
    split
    · exact not_mem_eta_field _ hd (by decide)
    · exact List.not_mem_nil _

/-! ## Invariants of the write paths -/

theorem write_non_tty_inv (text : List Char) (acc : List Act) (l : ℤ)
    (h1 : acts_nonneg acc = true) (h2 : resets_after_newline acc = true)
    (h3 : 0 ≤ l) :
    acts_nonneg (text.foldl write_non_tty_step (acc, l)).1 = true ∧
    resets_after_newline (text.foldl write_non_tty_step (acc, l)).1 = true ∧
    0 ≤ (text.foldl write_non_tty_step (acc, l)).2 := by
  induction text generalizing acc l with
  | nil => exact ⟨h1, h2, h3⟩
  | cons c t ih =>
      rw [List.foldl_cons]
      by_cases hc : c = '\n'
      · rw [show write_non_tty_step (acc, l) c = (acc ++ [.out ['\n'], .set_len 0], 0)
          from by simp [write_non_tty_step, hc]]
        exact ih _ _ (acts_nonneg_append h1 (by decide))
          (resets_append h2 (by decide)) le_rfl
      · rw [show write_non_tty_step (acc, l) c =
            (acc ++ [.out [c], .set_len (l + 1)], l + 1)
          from by simp [write_non_tty_step, hc]]
        refine ih _ _ (acts_nonneg_append h1 ?_) (resets_append h2 ?_) (by omega)
        · simp only [acts_nonneg, Bool.and_eq_true, decide_eq_true_eq]
          exact ⟨by omega, trivial⟩
        · simp [resets_after_newline, hc]

theorem write_tty_step_inv (cols : ℕ) (s : WState) (c : Char)
    (h1 : acts_nonneg s.acts = true) (h2 : resets_after_newline s.acts = true)
    (h3 : 0 ≤ s.len) (h4 : ∀ x ∈ s.buffer, x ≠ '\n') :
    acts_nonneg (write_tty_step cols s c).acts = true ∧
    resets_after_newline (write_tty_step cols s c).acts = true ∧
    0 ≤ (write_tty_step cols s c).len ∧
    ∀ x ∈ (write_tty_step cols s c).buffer, x ≠ '\n' := by
  have hbufreset : resets_after_newline [Act.out s.buffer] = true := by
    have : s.buffer.any (· = '\n') = false := by
      rw [List.any_eq_false]
      intro x hx
      simpa using h4 x hx
    simp [resets_after_newline, this]
  have hnlchunk : resets_after_newline
      [Act.out ('\n' :: CLEAR_LINE), Act.set_len 0] = true := by decide
  have hnlnn : acts_nonneg [Act.out ('\n' :: CLEAR_LINE), Act.set_len 0] = true := by
    decide
  unfold write_tty_step
  by_cases hcond : (cols : ℤ) ≤ s.len ∨ c = '\n'
  · rw [if_pos hcond]
    by_cases hbuf : s.buffer.isEmpty
    · rw [if_pos hbuf]
      by_cases hc : c = '\n'
      · rw [if_pos hc]
        exact ⟨acts_nonneg_append h1 hnlnn, resets_append h2 hnlchunk, le_rfl, h4⟩
      · rw [if_neg hc]
        refine ⟨?_, ?_, by norm_num, ?_⟩
        · refine acts_nonneg_append (acts_nonneg_append h1 hnlnn) ?_
          simp [acts_nonneg]
        · refine resets_append (resets_append h2 hnlchunk) ?_
          simp [resets_after_newline]
        · intro x hx
          rcases List.mem_append.mp hx with hx | hx
          · exact h4 x hx
          · rw [List.mem_singleton.mp hx]
            exact hc
    · rw [if_neg hbuf]
      by_cases hc : c = '\n'
      · rw [if_pos hc]
        refine ⟨?_, ?_, le_rfl, by simp⟩
        · exact acts_nonneg_append (acts_nonneg_append h1 (by simp [acts_nonneg])) hnlnn
        · exact resets_append (resets_append h2 hbufreset) hnlchunk
      · rw [if_neg hc]
        refine ⟨?_, ?_, by norm_num, ?_⟩
        · refine acts_nonneg_append
            (acts_nonneg_append (acts_nonneg_append h1 (by simp [acts_nonneg])) hnlnn) ?_
          simp [acts_nonneg]
        · refine resets_append (resets_append (resets_append h2 hbufreset) hnlchunk) ?_
          simp [resets_after_newline]
        · intro x hx
          rcases List.mem_append.mp hx with hx | hx
          · simp at hx
          · rw [List.mem_singleton.mp hx]
            exact hc
  · rw [if_neg hcond]
    have hc : ¬(c = '\n') := fun h => hcond (Or.inr h)
    rw [if_neg hc]
    refine ⟨?_, ?_, show (0 : ℤ) ≤ s.len + 1 by omega, ?_⟩
    · refine acts_nonneg_append h1 ?_
      simp only [acts_nonneg, Bool.and_eq_true, decide_eq_true_eq]
      exact ⟨by omega, trivial⟩
    · refine resets_append h2 ?_
      simp [resets_after_newline]
    · intro x hx
      rcases List.mem_append.mp hx with hx | hx
      · exact h4 x hx
      · rw [List.mem_singleton.mp hx]
        exact hc

theorem write_tty_loop_inv (cols : ℕ) (len0 : ℤ) (text : List Char)
    (h : 0 ≤ len0) :
    acts_nonneg (write_tty_loop cols len0 text).acts = true ∧
    resets_after_newline (write_tty_loop cols len0 text).acts = true ∧
    0 ≤ (write_tty_loop cols len0 text).len ∧
    ∀ x ∈ (write_tty_loop cols len0 text).buffer, x ≠ '\n' := by
  have H : ∀ (t : List Char) (s : WState),
      acts_nonneg s.acts = true → resets_after_newline s.acts = true →
      0 ≤ s.len → (∀ x ∈ s.buffer, x ≠ '\n') →
      acts_nonneg (t.foldl (write_tty_step cols) s).acts = true ∧
      resets_after_newline (t.foldl (write_tty_step cols) s).acts = true ∧
      0 ≤ (t.foldl (write_tty_step cols) s).len ∧
      ∀ x ∈ (t.foldl (write_tty_step cols) s).buffer, x ≠ '\n' := by
    intro t
    induction t with
    | nil => exact fun s a b c d => ⟨a, b, c, d⟩
    | cons ch t ih =>
        intro s a b c d
        rw [List.foldl_cons]
        obtain ⟨a2, b2, c2, d2⟩ := write_tty_step_inv cols s ch a b c d
        exact ih _ a2 b2 c2 d2
  exact H text ⟨[], [], len0, false⟩ rfl rfl h (by simp)

theorem write_tty_nonneg (pb : PB) (text : List Char)
    (hl : 0 ≤ pb.last_output_line_length) :
    acts_nonneg (write_tty pb text).1 = true ∧ 0 ≤ (write_tty pb text).2 := by
  obtain ⟨ha, -, hlen, -⟩ :=
    write_tty_loop_inv pb.columns pb.last_output_line_length text hl
  have hout : ∀ (l : List Char), acts_nonneg [Act.out l] = true := fun l => by
    simp [acts_nonneg]
  have hout2 : ∀ (l1 l2 : List Char), acts_nonneg [Act.out l1, Act.out l2] = true :=
    fun l1 l2 => by simp [acts_nonneg]
  have hflush : acts_nonneg
      (if (write_tty_loop pb.columns pb.last_output_line_length text).buffer.isEmpty
        then ([] : List Act)
        else [Act.out (write_tty_loop pb.columns pb.last_output_line_length
          text).buffer]) = true := by
    split
    · decide
    · exact hout _
  constructor
  · simp only [write_tty]
    split
    · exact acts_nonneg_append
        (acts_nonneg_append (acts_nonneg_append (hout _) ha) hflush) (hout _)
    · exact acts_nonneg_append
        (acts_nonneg_append (acts_nonneg_append (hout _) ha) hflush) (hout2 _ _)
  · exact hlen

theorem any_newline_eq_false {l : List Char} (h : '\n' ∉ l) :
    (l.any (· = '\n')) = false := by
  rw [List.any_eq_false]
  intro x hx
  simp only [decide_eq_true_eq]
  intro he
  exact h (he ▸ hx)

theorem resize_trace_ok (pb : PB) (nc : ℕ) (h0 : 0 ≤ pb.percentage)
    (h1 : pb.percentage ≤ 1) (hl : 0 ≤ pb.last_output_line_length) :
    len_zero_after_newline (handle_columns_resize pb nc).2
      pb.last_output_line_length = true ∧
    acts_nonneg (handle_columns_resize pb nc).2 = true ∧
    0 ≤ (handle_columns_resize pb nc).1.last_output_line_length := by
  have hA : ∀ n : ℕ, ((List.flatten (List.replicate n (CLEAR_LINE ++ MOVE_UP)) ++
      CLEAR_LINE ++ MOVE_START_OF_LINE)).any (· = '\n') = false := by
    intro n
    apply any_newline_eq_false
    intro hx
    rcases List.mem_append.mp hx with hx | hx
    · rcases List.mem_append.mp hx with hx | hx
      · obtain ⟨l, hl2, hx⟩ := List.mem_flatten.mp hx
        rw [(List.mem_replicate.mp hl2).2] at hx
        exact absurd hx (by decide)
      · exact absurd hx (by decide)
    · exact absurd hx (by decide)
  have hbar : ∀ (pb2 : PB), 0 ≤ pb2.percentage → pb2.percentage ≤ 1 →
      ((compute_progress_bar_string pb2) ++ MOVE_END_OF_LINE).any (· = '\n') = false := by
    intro pb2 hh0 hh1
    apply any_newline_eq_false
    intro hx
    rcases List.mem_append.mp hx with hx | hx
    · exact newline_not_mem_compute pb2 hh0 hh1 hx
    · exact absurd hx (by decide)
  unfold handle_columns_resize
  by_cases hbr : (nc : ℤ) < pb.last_output_line_length
  · simp only [if_pos hbr]
    refine ⟨?_, ?_, ?_⟩
    · simp only [List.cons_append, List.nil_append, len_zero_after_newline,
        head_resets, hA]
      simp [len_zero_after_newline, head_resets, hbar _ h0 h1]
    · simp [acts_nonneg]
    · simp
  · simp only [if_neg hbr]
    refine ⟨?_, ?_, ?_⟩
    · simp only [List.cons_append, List.nil_append, len_zero_after_newline,
        head_resets, hA]
      simp [len_zero_after_newline, head_resets, hbar _ h0 h1]
      left
      exact ⟨newline_not_mem_compute _ h0 h1, by decide⟩
    · simp [acts_nonneg]
    · simpa using hl

/-! ## Claim about the tracked line length -/

/-- C9 (counterexample): in a TTY write of `"a\nbc"` the bar is overwritten,
so after the text is processed the interceptor emits a newline (to move from
the user-text line down to the bar line, lines 298-299) while the tracked
length is 2 (for `"bc"`), and no reset to 0 follows: the tracked length is
not reset to 0 immediately after every newline emitted through the
interceptor. -/
theorem C9_counterexample :
    len_zero_after_newline
      (write_tty ⟨0, 0, 50, true, none, none, none⟩ ['a', '\n', 'b', 'c']).1 0 = false ∧
    resets_after_newline
      (write_tty ⟨0, 0, 50, true, none, none, none⟩ ['a', '\n', 'b', 'c']).1 = false ∧
    (write_tty ⟨0, 0, 50, true, none, none, none⟩ ['a', '\n', 'b', 'c']).2 = 2 :=
  ⟨by decide, by decide, by decide⟩

/-- C9 (amended): the tracked line length is never negative, in
non-interactive writes, in the TTY character loop, in the full TTY write and
in resize handling; every newline emitted while processing intercepted text
(a `\n` of the text, or a forced wrap at the terminal width) is immediately
followed by resetting the length to 0, and in resize handling the tracked
length is 0 right after every emitted newline.  (The exception, forced by
the counterexample: the newline a TTY write emits after the text to re-home
onto the bar line when the bar was overwritten leaves the counter at the
last user line's length.) -/
theorem C9_tracked_length (pb : PB) (text : List Char) (nc : ℕ)
    (h0 : 0 ≤ pb.percentage) (h1 : pb.percentage ≤ 1)
    (hl : 0 ≤ pb.last_output_line_length) :
    (resets_after_newline (write_non_tty pb.last_output_line_length text).1 = true ∧
     acts_nonneg (write_non_tty pb.last_output_line_length text).1 = true ∧
     0 ≤ (write_non_tty pb.last_output_line_length text).2) ∧
    (resets_after_newline
        (write_tty_loop pb.columns pb.last_output_line_length text).acts = true ∧
     acts_nonneg (write_tty_loop pb.columns pb.last_output_line_length text).acts = true ∧
     0 ≤ (write_tty_loop pb.columns pb.last_output_line_length text).len) ∧
    (acts_nonneg (write_tty pb text).1 = true ∧ 0 ≤ (write_tty pb text).2) ∧
    (len_zero_after_newline (handle_columns_resize pb nc).2
        pb.last_output_line_length = true ∧
     acts_nonneg (handle_columns_resize pb nc).2 = true ∧
     0 ≤ (handle_columns_resize pb nc).1.last_output_line_length) := by
  obtain ⟨ha, hr, hn⟩ := write_non_tty_inv text [] pb.last_output_line_length rfl rfl hl
  obtain ⟨la, lr, ln, -⟩ :=
    write_tty_loop_inv pb.columns pb.last_output_line_length text hl
  exact ⟨⟨hr, ha, hn⟩, ⟨lr, la, ln⟩, write_tty_nonneg pb text hl,
    resize_trace_ok pb nc h0 h1 hl⟩

/-- C9 witness: the amended statement at a concrete state, text and resize
width. -/
theorem C9_tracked_length_witness :
    (resets_after_newline (write_non_tty 0 ['h', 'i', '\n']).1 = true ∧
     acts_nonneg (write_non_tty 0 ['h', 'i', '\n']).1 = true ∧
     0 ≤ (write_non_tty 0 ['h', 'i', '\n']).2) ∧
    (resets_after_newline (write_tty_loop 30 0 ['h', 'i', '\n']).acts = true ∧
     acts_nonneg (write_tty_loop 30 0 ['h', 'i', '\n']).acts = true ∧
     0 ≤ (write_tty_loop 30 0 ['h', 'i', '\n']).len) ∧
    (acts_nonneg (write_tty ⟨1/2, 0, 30, true, none, none, none⟩ ['h', 'i', '\n']).1 = true ∧
     0 ≤ (write_tty ⟨1/2, 0, 30, true, none, none, none⟩ ['h', 'i', '\n']).2) ∧
    (len_zero_after_newline
        (handle_columns_resize ⟨1/2, 0, 30, true, none, none, none⟩ 25).2 0 = true ∧
     acts_nonneg (handle_columns_resize ⟨1/2, 0, 30, true, none, none, none⟩ 25).2 = true ∧
     0 ≤ (handle_columns_resize
        ⟨1/2, 0, 30, true, none, none, none⟩ 25).1.last_output_line_length) :=
  C9_tracked_length ⟨1/2, 0, 30, true, none, none, none⟩ ['h', 'i', '\n'] 25
    (by norm_num) (by norm_num) (by norm_num)

end PyProgressBar
